import Mathlib

/-!
Verification development for the Merlion deep-forecasting modules
`merlion/models/forecast/autoformer.py` and
`merlion/models/forecast/transformer.py`.

Tensors of shape (batch, time, channels) are embedded as nested lists of
rationals: a `Row` is one time step (channel values), a `Mat` is one batch
element (time-major), and a `Tensor3` is a batch of matrices.  Torch
operations used by the two `forward` methods (slicing along the time
dimension, concatenation along the time dimension, per-channel mean over
time, zero tensors, elementwise addition) are embedded pointwise.  The
neural submodules built in `__init__` (embeddings, encoder, decoder) live
in repository modules that are not part of the two source files; `forward`
is therefore embedded as a function parameterised over those submodules,
and where a claim needs their behaviour it is modelled from the spec.
-/

namespace Merlion

abbrev Row := List ℚ
abbrev Mat := List Row
abbrev Tensor3 := List Mat

/-- Embedding of the torch slice `x[:, (x.shape[1] - k):, :]` (equivalently
`x[:, -k:, :]`): for each batch element keep the last `k` time steps.
Faithful to the Python expression whenever `k ≤ x.shape[1]`, which is the
regime in which the source slices (negative slice starts behave
differently in Python and are never intended here). -/
def sliceLastTime (k : ℕ) (x : Tensor3) : Tensor3 :=
  x.map fun m => m.drop (m.length - k)

/-- Embedding of `torch.cat([a, b], dim=1)`: concatenate along time for each
batch element. -/
def catTime (a b : Tensor3) : Tensor3 :=
  List.zipWith (· ++ ·) a b

def rowAdd (r s : Row) : Row := List.zipWith (· + ·) r s

def rowSub (r s : Row) : Row := List.zipWith (· - ·) r s

def matAdd (a b : Mat) : Mat := List.zipWith rowAdd a b

def matSub (a b : Mat) : Mat := List.zipWith rowSub a b

/-- Embedding of elementwise tensor addition `a + b`. -/
def tensorAdd (a b : Tensor3) : Tensor3 := List.zipWith matAdd a b

def rowZeros (c : ℕ) : Row := List.replicate c 0

/-- Channel count of a batch element (`x.shape[2]` restricted to one batch
element; all rows agree on it for a well-formed tensor). -/
def channels (m : Mat) : ℕ := (m.headD []).length

/-- `x.shape[2]` of a batched tensor. -/
def tensorChannels (x : Tensor3) : ℕ := channels (x.headD [])

/-- Per-channel sum over the time dimension of one batch element. -/
def colSum (m : Mat) : Row := m.foldl rowAdd (rowZeros (channels m))

/-- Embedding of `torch.mean(x, dim=1)` for one batch element: the
per-channel mean over time. -/
def timeMean (m : Mat) : Row := (colSum m).map (· / (m.length : ℚ))

/-- Embedding of `torch.mean(past, dim=1).unsqueeze(1).repeat(1, k, 1)`:
per batch element, the per-channel mean row repeated `k` times. -/
def meanRepeat (k : ℕ) (x : Tensor3) : Tensor3 :=
  x.map fun m => List.replicate k (timeMean m)

/-- Embedding of `torch.zeros([b, k, c])`. -/
def zerosTensor (b k c : ℕ) : Tensor3 :=
  List.replicate b (List.replicate k (rowZeros c))

/-- Modelled from the spec: the moving-average smoothing used by the series
decomposition block (`SeriesDecomposeBlock` lives in
`merlion.models.utils.nn_modules`, which is not among the source files).
The signal is padded at both ends by repeating the first and last time
steps and each output time step is the average of a window of `k`
consecutive padded time steps, so the output has the input's time length. -/
def movingAvgMat (k : ℕ) (m : Mat) : Mat :=
  let pad := (k - 1) / 2
  let front := List.replicate pad (m.headD (rowZeros (channels m)))
  let back := List.replicate pad (m.getLastD (rowZeros (channels m)))
  let padded := front ++ m ++ back
  (List.range m.length).map fun t =>
    (((padded.drop t).take k).foldl rowAdd (rowZeros (channels m))).map (· / (k : ℚ))

/-- Modelled from the spec: the series decomposition block splits a signal
into a trend component (the moving average of the input) and a seasonal
component (the residual `input - trend`), returned as
`(seasonal, trend)` exactly as `SeriesDecomposeBlock.forward` does. -/
def seriesDecomp (k : ℕ) (x : Tensor3) : Tensor3 × Tensor3 :=
  let trend := x.map (movingAvgMat k)
  (List.zipWith matSub x trend, trend)

/-! ### Configuration objects

Only the fields the two source files read or write are modelled.  Optional
integer hyperparameters are `Option ℕ` (Python `None` is `none`). -/

structure AutoformerConfigR where
  n_past : ℕ
  max_forecast_steps : Option ℕ
  moving_avg : ℕ
  dim : Option ℕ
  start_token_len : ℕ
  enc_in : Option ℕ
  dec_in : Option ℕ
  c_out : Option ℕ
  target_seq_index : Option ℕ
  deriving Repr, DecidableEq

/-- Embedding of lines 109–111 of `AutoformerModel.__init__`:

```
if config.dim is not None:
    config.enc_in = config.dim if config.enc_in is None else config.enc_in
    config.dec_in = config.enc_in if config.dec_in is None else config.dec_in
```

Note `dec_in` defaults to the updated `enc_in`. -/
def autoformerAdjustDims (c : AutoformerConfigR) : AutoformerConfigR :=
  if c.dim.isSome then
    let c1 := { c with enc_in := if c.enc_in.isNone then c.dim else c.enc_in }
    { c1 with dec_in := if c1.dec_in.isNone then c1.enc_in else c1.dec_in }
  else c

/-- Python runtime errors raised by the embedded fragments. -/
inductive PyError where
  | nameError (missing : String)
  deriving Repr, DecidableEq

/-- Embedding of lines 113–116 of `AutoformerModel.__init__`:

```
if config.target_seq_index is None:
    config.c_out = config.enc_in
else:
    copnfig.c_out = 1
```

The `else` branch reads the undefined name `copnfig`, so Python raises
`NameError` there instead of assigning `config.c_out = 1`. -/
def autoformerSetCOut (c : AutoformerConfigR) : Except PyError AutoformerConfigR :=
  match c.target_seq_index with
  | none => .ok { c with c_out := c.enc_in }
  | some _ => .error (.nameError "copnfig")

structure TransformerConfigR where
  n_past : ℕ
  max_forecast_steps : Option ℕ
  dim : Option ℕ
  start_token_len : ℕ
  moving_avg : ℕ
  enc_in : Option ℕ
  dec_in : Option ℕ
  e_layers : ℕ
  d_layers : ℕ
  factor : ℕ
  d_model : ℕ
  embed : String
  dropout : ℚ
  activation : String
  n_heads : ℕ
  d_ff : ℕ
  distil : Bool
  target_seq_index : Option ℕ
  ts_freq : String
  deriving Repr, DecidableEq

/-- Embedding of the single config assignment performed by
`TransformerModel.__init__` (line 98 of `transformer.py`):
`self.dim = config.dim = config.enc_in` writes `config.enc_in` into
`config.dim`; no other config field is assigned by the constructor. -/
def transformerModelAdjustConfig (c : TransformerConfigR) : TransformerConfigR :=
  { c with dim := c.enc_in }

/-- The installation hint appended by both modules when importing torch
fails (lines 28–31 of each file). -/
def torchErrHint : String :=
  "Try installing Merlion with optional dependencies using `pip install salesforce-merlion[deep-learning]` or `pip install `salesforce-merlion[all]`"

/-! ### The two `forward` methods

The submodules assigned in `__init__` (embeddings, encoder, decoder) are
defined in repository modules outside the two source files, so `forward`
is embedded as a function taking those submodules as function arguments;
the body transcribes the Python line by line. -/

/-- Line 195–197 of `AutoformerModel.forward`: the timestamps handed to the
decoder embedding,
`torch.cat([past_timestamp[:, (past_timestamp.shape[1] - start_token_len):], future_timestamp], dim=1)`. -/
def decFutureTimestamp (stl : ℕ) (pastTs futTs : Tensor3) : Tensor3 :=
  catTime (sliceLastTime stl pastTs) futTs

/-- Lines 199–209 of `AutoformerModel.forward`: the decoder's initial
trend and seasonal streams, returned as `(seasonal_init, trend_init)`.
`decomp` is the series decomposition submodule `self.decomp`. -/
def decompInit (decomp : Tensor3 → Tensor3 × Tensor3) (stl mfs : ℕ) (past : Tensor3) :
    Tensor3 × Tensor3 :=
  let mean := meanRepeat mfs past
  let zeros := zerosTensor past.length mfs (tensorChannels past)
  let seasonalTrend := decomp past
  let seasonalInit := seasonalTrend.1
  let trendInit := seasonalTrend.2
  (catTime (sliceLastTime stl seasonalInit) zeros,
   catTime (sliceLastTime stl trendInit) mean)

/-- Embedding of `AutoformerModel.forward` (lines 183–222).  `decomp`,
`encEmb`, `encoder`, `decEmb` and `decoder` are the submodules built in
`__init__`; the decoder returns `(seasonal_part, trend_part)` from its
seasonal input, the encoder output and the initial trend stream. -/
def autoformerForward (decomp : Tensor3 → Tensor3 × Tensor3)
    (encEmb decEmb : Tensor3 → Tensor3 → Tensor3)
    (encoder : Tensor3 → Tensor3)
    (decoder : Tensor3 → Tensor3 → Tensor3 → Tensor3 × Tensor3)
    (stl mfs : ℕ) (past pastTs futTs : Tensor3) : Tensor3 :=
  let futTs2 := decFutureTimestamp stl pastTs futTs
  let inits := decompInit decomp stl mfs past
  let encOut := encoder (encEmb past pastTs)
  let decEmbOut := decEmb inits.1 futTs2
  let parts := decoder decEmbOut encOut inits.2
  let decOut := tensorAdd parts.2 parts.1
  sliceLastTime mfs decOut

/-- Embedding of `TransformerModel.forward` (lines 148–165): embed and
encode the past, embed the decoder inputs, decode, and keep the last
`max_forecast_steps` time steps. -/
def transformerForward (encEmb decEmb : Tensor3 → Tensor3 → Tensor3)
    (encoder : Tensor3 → Tensor3)
    (decoder : Tensor3 → Tensor3 → Tensor3)
    (mfs : ℕ) (past pastTs pastDec pastTsDec : Tensor3) : Tensor3 :=
  let encOut := encoder (encEmb past pastTs)
  let decOut := decoder (decEmb pastDec pastTsDec) encOut
  sliceLastTime mfs decOut

/-- Modelled from the spec: the Autoformer decoder stack
(`merlion.models.utils.nn_modules.enc_dec_autoformer.Decoder`, not among
the source files) additionally accumulates a running trend term.  Each
layer maps the current seasonal stream and the encoder output to a new
seasonal stream and a trend increment, and the increment is added to the
running trend, which starts from the `trend` argument. -/
def decoderStack (layers : List (Tensor3 → Tensor3 → Tensor3 × Tensor3))
    (x cross trend : Tensor3) : Tensor3 × Tensor3 :=
  match layers with
  | [] => (x, trend)
  | layer :: rest =>
      let out := layer x cross
      decoderStack rest out.1 cross (tensorAdd trend out.2)

/-- The seasonal stream produced by running the decoder layers. -/
def decoderSeasonal (layers : List (Tensor3 → Tensor3 → Tensor3 × Tensor3))
    (x cross : Tensor3) : Tensor3 :=
  match layers with
  | [] => x
  | layer :: rest => decoderSeasonal rest (layer x cross).1 cross

/-- The list of trend increments produced by the decoder layers, in order. -/
def decoderIncs (layers : List (Tensor3 → Tensor3 → Tensor3 × Tensor3))
    (x cross : Tensor3) : List Tensor3 :=
  match layers with
  | [] => []
  | layer :: rest => (layer x cross).2 :: decoderIncs rest (layer x cross).1 cross

/-- Embedding of the `try:/except ImportError` guard around
`import torch` in both modules (lines 23–32): a failed import with message
`e` is re-raised as `ImportError(str(e) + ". " + err)`; a successful import
raises nothing. -/
def torchImportGuard (torchImport : Except String Unit) : Except String Unit :=
  match torchImport with
  | .ok _ => .ok ()
  | .error e => .error (e ++ ". " ++ torchErrHint)

/-! ### Concrete configurations used for evaluation -/

/-- An `AutoformerConfig` with `dim` supplied and `enc_in`, `dec_in`,
`target_seq_index` left at `None`. -/
def cfgDefaults : AutoformerConfigR := ⟨8, some 4, 25, some 3, 0, none, none, none, none⟩

/-- An `AutoformerConfig` with `target_seq_index = 0` (not `None`). -/
def cfgTarget : AutoformerConfigR := ⟨8, some 4, 25, some 2, 0, some 2, some 2, none, some 0⟩

/-- An `AutoformerConfig` with `target_seq_index = None`. -/
def cfgNoTarget : AutoformerConfigR := ⟨8, some 4, 25, some 2, 0, some 2, some 2, none, none⟩

/-! ### Components and inputs used to exercise the `forward` embeddings -/

/-- A trivial series decomposition submodule used for concrete evaluation. -/
def wDecomp : Tensor3 → Tensor3 × Tensor3 := fun x => (x, x)

/-- A trivial data-embedding submodule used for concrete evaluation. -/
def wEmb : Tensor3 → Tensor3 → Tensor3 := fun v _ => v

/-- A trivial encoder submodule used for concrete evaluation. -/
def wEnc : Tensor3 → Tensor3 := fun v => v

/-- A trivial trend-accumulating decoder used for concrete evaluation. -/
def wDec : Tensor3 → Tensor3 → Tensor3 → Tensor3 × Tensor3 := fun d _ t => (d, t)

/-- A trivial Transformer decoder used for concrete evaluation. -/
def wDecT : Tensor3 → Tensor3 → Tensor3 := fun d _ => d

/-- A past window with one batch element, two time steps, one channel. -/
def wPast : Tensor3 := [[[1], [2]]]

/-- Past timestamps matching `wPast`. -/
def wPastTs : Tensor3 := [[[10], [20]]]

/-- One future timestamp. -/
def wFutTs : Tensor3 := [[[30]]]

/-! ### Unfolding lemmas for the two `forward` embeddings -/

/-- `AutoformerModel.forward` with its intermediate bindings inlined. -/
theorem autoformerForward_eq (decomp : Tensor3 → Tensor3 × Tensor3)
    (encEmb decEmb : Tensor3 → Tensor3 → Tensor3) (encoder : Tensor3 → Tensor3)
    (decoder : Tensor3 → Tensor3 → Tensor3 → Tensor3 × Tensor3)
    (stl mfs : ℕ) (past pastTs futTs : Tensor3) :
    autoformerForward decomp encEmb decEmb encoder decoder stl mfs past pastTs futTs
      = sliceLastTime mfs
          (tensorAdd
            (decoder (decEmb (decompInit decomp stl mfs past).1 (decFutureTimestamp stl pastTs futTs))
              (encoder (encEmb past pastTs)) (decompInit decomp stl mfs past).2).2
            (decoder (decEmb (decompInit decomp stl mfs past).1 (decFutureTimestamp stl pastTs futTs))
              (encoder (encEmb past pastTs)) (decompInit decomp stl mfs past).2).1) := rfl

/-- `TransformerModel.forward` with its intermediate bindings inlined. -/
theorem transformerForward_eq (encEmb decEmb : Tensor3 → Tensor3 → Tensor3)
    (encoder : Tensor3 → Tensor3) (decoder : Tensor3 → Tensor3 → Tensor3)
    (mfs : ℕ) (past pastTs pastDec pastTsDec : Tensor3) :
    transformerForward encEmb decEmb encoder decoder mfs past pastTs pastDec pastTsDec
      = sliceLastTime mfs (decoder (decEmb pastDec pastTsDec) (encoder (encEmb past pastTs))) := rfl

/-- The time slice kept by both `forward` methods: for a batch index in
range and `mfs` at most the time length, the slice has time length exactly
`mfs` and its `i`-th time step is the `(L - mfs + i)`-th time step of the
unsliced tensor. -/
theorem sliceLastTime_spec (mfs : ℕ) (d : Tensor3) (b i : ℕ)
    (hm : mfs ≤ (d.getD b []).length) (hi : i < mfs) :
    ((sliceLastTime mfs d).getD b []).length = mfs
    ∧ ((sliceLastTime mfs d).getD b []).getD i []
        = (d.getD b []).getD ((d.getD b []).length - mfs + i) [] := by
  by_cases hb : b < d.length
  · have hdb : d.getD b [] = d[b] := List.getD_eq_getElem d [] hb
    have hmap : (sliceLastTime mfs d).getD b [] = d[b].drop (d[b].length - mfs) := by
      unfold sliceLastTime
      rw [List.getD_eq_getElem _ [] (by simpa using hb), List.getElem_map]
    rw [hdb] at hm
    have hlen : (d[b].drop (d[b].length - mfs)).length = mfs := by
      rw [List.length_drop]; omega
    refine ⟨by rw [hmap, hlen], ?_⟩
    rw [hmap, hdb]
    have hi' : i < (d[b].drop (d[b].length - mfs)).length := by rw [hlen]; exact hi
    have hj : d[b].length - mfs + i < d[b].length := by omega
    rw [List.getD_eq_getElem _ [] hi', List.getD_eq_getElem _ [] hj]
    exact List.getElem_drop ..
  · have h0 : d.getD b [] = [] := List.getD_eq_default d [] (not_lt.mp hb)
    rw [h0] at hm
    simp only [List.length_nil, Nat.le_zero] at hm
    omega

/-! ### Claims about configuration handling and the import guard -/

/-- C7: when `config.dim` is not `None`, `AutoformerModel.__init__` defaults
`enc_in` to `dim` and `dec_in` to the (possibly just updated) `enc_in`,
leaving explicitly supplied values unchanged; with both left `None`,
`dec_in` ends up equal to `dim`. -/
theorem c7_autoformer_dim_defaults (c : AutoformerConfigR) (d : ℕ) (hd : c.dim = some d) :
    (c.enc_in = none → (autoformerAdjustDims c).enc_in = some d)
    ∧ (∀ e, c.enc_in = some e → (autoformerAdjustDims c).enc_in = some e)
    ∧ (c.dec_in = none → (autoformerAdjustDims c).dec_in = (autoformerAdjustDims c).enc_in)
    ∧ (∀ e, c.dec_in = some e → (autoformerAdjustDims c).dec_in = some e)
    ∧ (c.enc_in = none → c.dec_in = none → (autoformerAdjustDims c).dec_in = some d) := by
  unfold autoformerAdjustDims
  rw [hd]
  cases henc : c.enc_in <;> cases hdec : c.dec_in <;>
    simp [henc, hdec]

/-- Witness for C7 at `cfgDefaults` (`dim = 3`, `enc_in = dec_in = None`). -/
theorem c7_autoformer_dim_defaults_witness :
    cfgDefaults.dim = some 3
    ∧ (autoformerAdjustDims cfgDefaults).enc_in = some 3
    ∧ (autoformerAdjustDims cfgDefaults).dec_in = some 3 :=
  ⟨rfl, (c7_autoformer_dim_defaults cfgDefaults 3 rfl).1 rfl,
    (c7_autoformer_dim_defaults cfgDefaults 3 rfl).2.2.2.2 rfl rfl⟩

/-- C2 (code bug): with `target_seq_index` not `None`, line 116 of
`autoformer.py` executes `copnfig.c_out = 1`, which raises
`NameError: name 'copnfig' is not defined` instead of setting
`config.c_out = 1`; the `target_seq_index is None` branch does set
`c_out = enc_in` as the claim says. -/
theorem c2_cout_name_error :
    autoformerSetCOut cfgTarget = .error (.nameError "copnfig")
    ∧ autoformerSetCOut cfgNoTarget = .ok { cfgNoTarget with c_out := cfgNoTarget.enc_in } :=
  ⟨rfl, rfl⟩

/-- C9: `TransformerModel.__init__` overwrites `config.dim` with
`config.enc_in` (whatever `dim` the caller supplied) and changes no other
config field. -/
theorem c9_transformer_init_mutates_dim (c : TransformerConfigR) :
    (transformerModelAdjustConfig c).dim = c.enc_in
    ∧ (transformerModelAdjustConfig c).n_past = c.n_past
    ∧ (transformerModelAdjustConfig c).max_forecast_steps = c.max_forecast_steps
    ∧ (transformerModelAdjustConfig c).start_token_len = c.start_token_len
    ∧ (transformerModelAdjustConfig c).moving_avg = c.moving_avg
    ∧ (transformerModelAdjustConfig c).enc_in = c.enc_in
    ∧ (transformerModelAdjustConfig c).dec_in = c.dec_in
    ∧ (transformerModelAdjustConfig c).e_layers = c.e_layers
    ∧ (transformerModelAdjustConfig c).d_layers = c.d_layers
    ∧ (transformerModelAdjustConfig c).factor = c.factor
    ∧ (transformerModelAdjustConfig c).d_model = c.d_model
    ∧ (transformerModelAdjustConfig c).embed = c.embed
    ∧ (transformerModelAdjustConfig c).dropout = c.dropout
    ∧ (transformerModelAdjustConfig c).activation = c.activation
    ∧ (transformerModelAdjustConfig c).n_heads = c.n_heads
    ∧ (transformerModelAdjustConfig c).d_ff = c.d_ff
    ∧ (transformerModelAdjustConfig c).distil = c.distil
    ∧ (transformerModelAdjustConfig c).target_seq_index = c.target_seq_index
    ∧ (transformerModelAdjustConfig c).ts_freq = c.ts_freq := by
  refine ⟨rfl, rfl, rfl, rfl, rfl, rfl, rfl, rfl, rfl, rfl, rfl, rfl, rfl, rfl, rfl, rfl,
    rfl, rfl, rfl⟩

/-- C6: a failed torch import is re-raised as an `ImportError` whose
message is the original message followed by the installation hint, hence
contains both; a successful import raises nothing. -/
theorem c6_torch_import_guard :
    (∀ e : String, torchImportGuard (.error e) = .error (e ++ ". " ++ torchErrHint))
    ∧ torchImportGuard (.ok ()) = .ok () :=
  ⟨fun _ => rfl, rfl⟩

/-- C1: both `AutoformerModel.forward` and `TransformerModel.forward`
return exactly the last `max_forecast_steps` time steps of the decoder
stack's output tensor (`dec_out[:, -max_forecast_steps:, :]`): for every
batch index the returned time length is `max_forecast_steps` and the
`i`-th returned time step is time step `L - max_forecast_steps + i` of the
decoder output, so all earlier decoder time steps are discarded. -/
theorem c1_forward_slices_decoder_output (decomp : Tensor3 → Tensor3 × Tensor3)
    (encEmb decEmb : Tensor3 → Tensor3 → Tensor3) (encoder : Tensor3 → Tensor3)
    (decoder : Tensor3 → Tensor3 → Tensor3 → Tensor3 × Tensor3)
    (encEmbT decEmbT : Tensor3 → Tensor3 → Tensor3) (encoderT : Tensor3 → Tensor3)
    (decoderT : Tensor3 → Tensor3 → Tensor3)
    (stl mfs : ℕ) (past pastTs futTs pastDec pastTsDec : Tensor3)
    (sPart tPart decOutT : Tensor3)
    (hA : decoder (decEmb (decompInit decomp stl mfs past).1 (decFutureTimestamp stl pastTs futTs))
            (encoder (encEmb past pastTs)) (decompInit decomp stl mfs past).2 = (sPart, tPart))
    (hT : decoderT (decEmbT pastDec pastTsDec) (encoderT (encEmbT past pastTs)) = decOutT) :
    (∀ b i : ℕ, mfs ≤ ((tensorAdd tPart sPart).getD b []).length → i < mfs →
      ((autoformerForward decomp encEmb decEmb encoder decoder stl mfs past pastTs futTs).getD b
          []).length = mfs
      ∧ ((autoformerForward decomp encEmb decEmb encoder decoder stl mfs past pastTs
            futTs).getD b []).getD i []
          = ((tensorAdd tPart sPart).getD b []).getD
              (((tensorAdd tPart sPart).getD b []).length - mfs + i) [])
    ∧ (∀ b i : ℕ, mfs ≤ (decOutT.getD b []).length → i < mfs →
      ((transformerForward encEmbT decEmbT encoderT decoderT mfs past pastTs pastDec
          pastTsDec).getD b []).length = mfs
      ∧ ((transformerForward encEmbT decEmbT encoderT decoderT mfs past pastTs pastDec
            pastTsDec).getD b []).getD i []
          = (decOutT.getD b []).getD ((decOutT.getD b []).length - mfs + i) []) := by
  have hfa : autoformerForward decomp encEmb decEmb encoder decoder stl mfs past pastTs futTs
      = sliceLastTime mfs (tensorAdd tPart sPart) := by
    rw [autoformerForward_eq, hA]
  have hft : transformerForward encEmbT decEmbT encoderT decoderT mfs past pastTs pastDec
      pastTsDec = sliceLastTime mfs decOutT := by
    rw [transformerForward_eq, hT]
  exact ⟨fun b i hm hi => by rw [hfa]; exact sliceLastTime_spec mfs (tensorAdd tPart sPart) b i hm hi,
    fun b i hm hi => by rw [hft]; exact sliceLastTime_spec mfs decOutT b i hm hi⟩

/-- The seasonal part produced by the trivial decoder `wDec` on the
witness inputs. -/
def wSPart : Tensor3 :=
  wEmb (decompInit wDecomp 0 1 wPast).1 (decFutureTimestamp 0 wPastTs wFutTs)

/-- The trend part produced by the trivial decoder `wDec` on the witness
inputs. -/
def wTPart : Tensor3 := (decompInit wDecomp 0 1 wPast).2

/-- The decoder output of the trivial Transformer decoder `wDecT` on the
witness inputs. -/
def wDecOutT : Tensor3 := wDecT (wEmb wPast wPastTs) (wEnc (wEmb wPast wPastTs))

/-- Witness for C1 with trivial submodules, one batch element, two past
time steps and a horizon of one step. -/
theorem c1_forward_slices_decoder_output_witness :
    (wDec (wEmb (decompInit wDecomp 0 1 wPast).1 (decFutureTimestamp 0 wPastTs wFutTs))
        (wEnc (wEmb wPast wPastTs)) (decompInit wDecomp 0 1 wPast).2 = (wSPart, wTPart))
    ∧ (1 ≤ ((tensorAdd wTPart wSPart).getD 0 []).length)
    ∧ (1 ≤ (wDecOutT.getD 0 []).length)
    ∧ ((autoformerForward wDecomp wEmb wEmb wEnc wDec 0 1 wPast wPastTs wFutTs).getD 0
        []).length = 1
    ∧ ((transformerForward wEmb wEmb wEnc wDecT 1 wPast wPastTs wPast wPastTs).getD 0
        []).length = 1 := by
  refine ⟨rfl, by decide, by decide, ?_, ?_⟩
  · exact ((c1_forward_slices_decoder_output wDecomp wEmb wEmb wEnc wDec wEmb wEmb wEnc wDecT
      0 1 wPast wPastTs wFutTs wPast wPastTs wSPart wTPart wDecOutT rfl
      rfl).1 0 0 (by decide) (by decide)).1
  · exact ((c1_forward_slices_decoder_output wDecomp wEmb wEmb wEnc wDec wEmb wEmb wEnc wDecT
      0 1 wPast wPastTs wFutTs wPast wPastTs wSPart wTPart wDecOutT rfl
      rfl).2 0 0 (by decide) (by decide)).1

/-- A Transformer decoder for concrete evaluation that keeps one time
step, so its output time length is `start_token_len + max_forecast_steps`
for `start_token_len = 0`, `max_forecast_steps = 1`. -/
def wDecTShort : Tensor3 → Tensor3 → Tensor3 := fun d _ => sliceLastTime 1 d

/-- The output of `wDecTShort` on the witness inputs. -/
def wDecOutTShort : Tensor3 := wDecTShort (wEmb wPast wPastTs) (wEnc (wEmb wPast wPastTs))

/-- Every element of a `zipWith` is the image of an element of each list. -/
theorem exists_of_mem_zipWith {α β γ : Type} {f : α → β → γ} :
    ∀ {a : List α} {b : List β} {c : γ},
      c ∈ List.zipWith f a b → ∃ x ∈ a, ∃ y ∈ b, c = f x y := by
  intro a
  induction a with
  | nil => intro b c h; simp at h
  | cons x xs ih =>
    intro b c h
    cases b with
    | nil => simp at h
    | cons y ys =>
      rw [List.zipWith_cons_cons, List.mem_cons] at h
      rcases h with h | h
      · exact ⟨x, List.mem_cons_self x xs, y, List.mem_cons_self y ys, h⟩
      · obtain ⟨x', hx', y', hy', hc⟩ := ih h
        exact ⟨x', List.mem_cons_of_mem x hx', y', List.mem_cons_of_mem y hy', hc⟩

/-- Shape of an elementwise tensor sum: batch count is the minimum of the
batch counts, and each batch element is the elementwise sum of matrices. -/
theorem length_tensorAdd (a b : Tensor3) :
    (tensorAdd a b).length = min a.length b.length := List.length_zipWith ..

/-- Time and channel counts of a matrix sum. -/
theorem matAdd_shape {t c : ℕ} {m1 m2 : Mat}
    (h1 : m1.length = t ∧ ∀ r ∈ m1, r.length = c)
    (h2 : m2.length = t ∧ ∀ r ∈ m2, r.length = c) :
    (matAdd m1 m2).length = t ∧ ∀ r ∈ matAdd m1 m2, r.length = c := by
  constructor
  · rw [matAdd, List.length_zipWith, h1.1, h2.1, Nat.min_self]
  · intro r hr
    obtain ⟨r1, hr1, r2, hr2, rfl⟩ := exists_of_mem_zipWith hr
    rw [rowAdd, List.length_zipWith, h1.2 r1 hr1, h2.2 r2 hr2, Nat.min_self]

/-- Shape of the slice kept by both `forward` methods, given the shape of
the unsliced decoder output. -/
theorem sliceLastTime_shape {ℓ mfs c : ℕ} {d : Tensor3}
    (hd : ∀ m ∈ d, m.length = ℓ ∧ ∀ r ∈ m, r.length = c) (hm : mfs ≤ ℓ) :
    (sliceLastTime mfs d).length = d.length
    ∧ ∀ m ∈ sliceLastTime mfs d, m.length = mfs ∧ ∀ r ∈ m, r.length = c := by
  refine ⟨List.length_map .., ?_⟩
  intro m hmem
  obtain ⟨m', hm', rfl⟩ := List.mem_map.mp hmem
  obtain ⟨hlen, hrow⟩ := hd m' hm'
  refine ⟨?_, ?_⟩
  · rw [List.length_drop, hlen]; omega
  · intro r hr
    exact hrow r (List.mem_of_mem_drop hr)

/-- C3: the tensor returned by `AutoformerModel.forward` and by
`TransformerModel.forward` has shape (batch, horizon, channels): batch
equals the batch size of `past`, horizon equals `max_forecast_steps`, and
channels equals the model's output channel count `c_out`, assuming the
decoder stacks emit one matrix per batch element of time length
`start_token_len + max_forecast_steps` and channel count `c_out`. -/
theorem c3_forward_output_shape (decomp : Tensor3 → Tensor3 × Tensor3)
    (encEmb decEmb : Tensor3 → Tensor3 → Tensor3) (encoder : Tensor3 → Tensor3)
    (decoder : Tensor3 → Tensor3 → Tensor3 → Tensor3 × Tensor3)
    (encEmbT decEmbT : Tensor3 → Tensor3 → Tensor3) (encoderT : Tensor3 → Tensor3)
    (decoderT : Tensor3 → Tensor3 → Tensor3)
    (stl mfs cOut : ℕ) (past pastTs futTs pastDec pastTsDec : Tensor3)
    (sPart tPart decOutT : Tensor3)
    (hA : decoder (decEmb (decompInit decomp stl mfs past).1 (decFutureTimestamp stl pastTs futTs))
            (encoder (encEmb past pastTs)) (decompInit decomp stl mfs past).2 = (sPart, tPart))
    (hT : decoderT (decEmbT pastDec pastTsDec) (encoderT (encEmbT past pastTs)) = decOutT)
    (hsl : sPart.length = past.length) (htl : tPart.length = past.length)
    (hs : ∀ m ∈ sPart, m.length = stl + mfs ∧ ∀ r ∈ m, r.length = cOut)
    (ht : ∀ m ∈ tPart, m.length = stl + mfs ∧ ∀ r ∈ m, r.length = cOut)
    (hTl : decOutT.length = past.length)
    (hTm : ∀ m ∈ decOutT, m.length = stl + mfs ∧ ∀ r ∈ m, r.length = cOut) :
    ((autoformerForward decomp encEmb decEmb encoder decoder stl mfs past pastTs
        futTs).length = past.length
      ∧ ∀ m ∈ autoformerForward decomp encEmb decEmb encoder decoder stl mfs past pastTs futTs,
          m.length = mfs ∧ ∀ r ∈ m, r.length = cOut)
    ∧ ((transformerForward encEmbT decEmbT encoderT decoderT mfs past pastTs pastDec
        pastTsDec).length = past.length
      ∧ ∀ m ∈ transformerForward encEmbT decEmbT encoderT decoderT mfs past pastTs pastDec
          pastTsDec, m.length = mfs ∧ ∀ r ∈ m, r.length = cOut) := by
  have hfa : autoformerForward decomp encEmb decEmb encoder decoder stl mfs past pastTs futTs
      = sliceLastTime mfs (tensorAdd tPart sPart) := by
    rw [autoformerForward_eq, hA]
  have hft : transformerForward encEmbT decEmbT encoderT decoderT mfs past pastTs pastDec
      pastTsDec = sliceLastTime mfs decOutT := by
    rw [transformerForward_eq, hT]
  have hsum : ∀ m ∈ tensorAdd tPart sPart, m.length = stl + mfs ∧ ∀ r ∈ m, r.length = cOut := by
    intro m hm
    obtain ⟨mt, hmt, ms, hms, rfl⟩ := exists_of_mem_zipWith hm
    exact matAdd_shape (ht mt hmt) (hs ms hms)
  have hmfs : mfs ≤ stl + mfs := Nat.le_add_left mfs stl
  have ha := sliceLastTime_shape hsum hmfs
  have htr := sliceLastTime_shape hTm hmfs
  refine ⟨⟨?_, by rw [hfa]; exact ha.2⟩, ⟨?_, by rw [hft]; exact htr.2⟩⟩
  · rw [hfa, ha.1, length_tensorAdd, htl, hsl, Nat.min_self]
  · rw [hft, htr.1, hTl]

/-- Witness for C3 with trivial submodules: one batch element, horizon
one, channel count one. -/
theorem c3_forward_output_shape_witness :
    (wDec (wEmb (decompInit wDecomp 0 1 wPast).1 (decFutureTimestamp 0 wPastTs wFutTs))
        (wEnc (wEmb wPast wPastTs)) (decompInit wDecomp 0 1 wPast).2 = (wSPart, wTPart))
    ∧ wSPart.length = wPast.length
    ∧ (∀ m ∈ wSPart, m.length = 0 + 1 ∧ ∀ r ∈ m, r.length = 1)
    ∧ (autoformerForward wDecomp wEmb wEmb wEnc wDec 0 1 wPast wPastTs wFutTs).length
        = wPast.length
    ∧ (transformerForward wEmb wEmb wEnc wDecTShort 1 wPast wPastTs wPast wPastTs).length
        = wPast.length := by
  refine ⟨rfl, by decide, by decide, ?_, ?_⟩
  · exact ((c3_forward_output_shape wDecomp wEmb wEmb wEnc wDec wEmb wEmb wEnc wDecTShort
      0 1 1 wPast wPastTs wFutTs wPast wPastTs wSPart wTPart wDecOutTShort rfl rfl
      (by decide) (by decide) (by decide) (by decide) (by decide) (by decide)).1).1
  · exact ((c3_forward_output_shape wDecomp wEmb wEmb wEnc wDec wEmb wEmb wEnc wDecTShort
      0 1 1 wPast wPastTs wFutTs wPast wPastTs wSPart wTPart wDecOutTShort rfl rfl
      (by decide) (by decide) (by decide) (by decide) (by decide) (by decide)).2).1

/-- Running the decoder stack yields the seasonal stream of the layers and
the initial trend with all layer increments folded in. -/
theorem decoderStack_eq (layers : List (Tensor3 → Tensor3 → Tensor3 × Tensor3)) :
    ∀ x cross trend : Tensor3,
      decoderStack layers x cross trend
        = (decoderSeasonal layers x cross,
           List.foldl tensorAdd trend (decoderIncs layers x cross)) := by
  induction layers with
  | nil => intro x cross trend; rfl
  | cons layer rest ih =>
    intro x cross trend
    show decoderStack rest (layer x cross).1 cross (tensorAdd trend (layer x cross).2) = _
    rw [ih]
    rfl

/-- C4: with the trend-accumulating decoder stack, `AutoformerModel.forward`
returns the time slice of `trend_part + seasonal_part`, where the trend
part is the `trend_init` stream passed in with every layer's trend
increment accumulated onto it. -/
theorem c4_trend_plus_seasonal (decomp : Tensor3 → Tensor3 × Tensor3)
    (encEmb decEmb : Tensor3 → Tensor3 → Tensor3) (encoder : Tensor3 → Tensor3)
    (layers : List (Tensor3 → Tensor3 → Tensor3 × Tensor3))
    (stl mfs : ℕ) (past pastTs futTs : Tensor3) :
    autoformerForward decomp encEmb decEmb encoder (decoderStack layers) stl mfs past pastTs
        futTs
      = sliceLastTime mfs
          (tensorAdd
            (List.foldl tensorAdd (decompInit decomp stl mfs past).2
              (decoderIncs layers
                (decEmb (decompInit decomp stl mfs past).1 (decFutureTimestamp stl pastTs futTs))
                (encoder (encEmb past pastTs))))
            (decoderSeasonal layers
              (decEmb (decompInit decomp stl mfs past).1 (decFutureTimestamp stl pastTs futTs))
              (encoder (encEmb past pastTs)))) := by
  rw [autoformerForward_eq, decoderStack_eq]

/-- The moving average preserves the time length of a batch element. -/
theorem length_movingAvgMat (k : ℕ) (m : Mat) : (movingAvgMat k m).length = m.length := by
  simp [movingAvgMat]

/-- Both series-decomposition outputs keep the time length of the input. -/
theorem seriesDecomp_lengths (k npast : ℕ) (past : Tensor3)
    (hlen : ∀ m ∈ past, m.length = npast) :
    (∀ m ∈ (seriesDecomp k past).2, m.length = npast)
    ∧ (∀ m ∈ (seriesDecomp k past).1, m.length = npast) := by
  constructor
  · intro m hm
    obtain ⟨p, hp, rfl⟩ := List.mem_map.mp hm
    rw [length_movingAvgMat]
    exact hlen p hp
  · intro m hm
    obtain ⟨p, hp, t, ht, rfl⟩ := exists_of_mem_zipWith hm
    obtain ⟨p2, hp2, rfl⟩ := List.mem_map.mp ht
    rw [matSub, List.length_zipWith, length_movingAvgMat, hlen p hp, hlen p2 hp2,
      Nat.min_self]

/-- `getD` of a `map` at an in-range index. -/
theorem getD_map_mat (f : Mat → Mat) (x : Tensor3) (i : ℕ) (h : i < x.length) :
    (x.map f).getD i [] = f (x.getD i []) := by
  rw [List.getD_eq_getElem x [] h, List.getD_eq_getElem _ [] (by simpa using h),
    List.getElem_map]

/-- `getD` of a binary `zipWith` of tensors at an in-range index. -/
theorem getD_zipWith_mat (f : Mat → Mat → Mat) (a b : Tensor3) (i : ℕ)
    (ha : i < a.length) (hb : i < b.length) :
    (List.zipWith f a b).getD i [] = f (a.getD i []) (b.getD i []) := by
  rw [List.getD_eq_getElem a [] ha, List.getD_eq_getElem b [] hb,
    List.getD_eq_getElem _ [] (by rw [List.length_zipWith]; omega)]
  exact List.getElem_zipWith ..

/-- `getD` of a `replicate` at an in-range index. -/
theorem getD_replicate_mat (m : Mat) (n i : ℕ) (h : i < n) :
    (List.replicate n m).getD i [] = m := by
  rw [List.getD_eq_getElem _ [] (by simpa using h), List.getElem_replicate]

/-- C8: in `AutoformerModel.forward` the decoder's initial seasonal and
trend streams both have time length `start_token_len + max_forecast_steps`;
past the first `start_token_len` rows, every trend row is the per-channel
mean of the past window and every seasonal row is zero; and the first
`start_token_len` rows are the last `start_token_len` rows of the trend
and seasonal decompositions of the past window. -/
theorem c8_decoder_init_streams (k stl mfs npast : ℕ) (past : Tensor3) (si ti : Tensor3)
    (hstl : stl ≤ npast) (hlen : ∀ m ∈ past, m.length = npast)
    (hd : decompInit (seriesDecomp k) stl mfs past = (si, ti)) :
    (∀ m ∈ si, m.length = stl + mfs)
    ∧ (∀ m ∈ ti, m.length = stl + mfs)
    ∧ ∀ b : ℕ, b < past.length →
        (ti.getD b []).drop stl = List.replicate mfs (timeMean (past.getD b []))
        ∧ (si.getD b []).drop stl = List.replicate mfs (rowZeros (tensorChannels past))
        ∧ (ti.getD b []).take stl = ((seriesDecomp k past).2.getD b []).drop (npast - stl)
        ∧ (si.getD b []).take stl = ((seriesDecomp k past).1.getD b []).drop (npast - stl) := by
  have h1 : decompInit (seriesDecomp k) stl mfs past
      = (catTime (sliceLastTime stl (seriesDecomp k past).1)
           (zerosTensor past.length mfs (tensorChannels past)),
         catTime (sliceLastTime stl (seriesDecomp k past).2) (meanRepeat mfs past)) := rfl
  rw [h1, Prod.mk.injEq] at hd
  obtain ⟨hsi, hti⟩ := hd
  subst hsi
  subst hti
  have htrend := (seriesDecomp_lengths k npast past hlen).1
  have hseason := (seriesDecomp_lengths k npast past hlen).2
  have htrendlen : (seriesDecomp k past).2.length = past.length := List.length_map ..
  have hseasonlen : (seriesDecomp k past).1.length = past.length := by
    show (List.zipWith matSub past ((seriesDecomp k past).2)).length = _
    rw [List.length_zipWith, htrendlen, Nat.min_self]
  refine ⟨?_, ?_, ?_⟩
  · intro m hm
    obtain ⟨x, hx, y, hy, rfl⟩ := exists_of_mem_zipWith hm
    obtain ⟨s, hs, rfl⟩ := List.mem_map.mp hx
    have hy' := List.eq_of_mem_replicate hy
    subst hy'
    rw [List.length_append, List.length_drop, List.length_replicate, hseason s hs]
    omega
  · intro m hm
    obtain ⟨x, hx, y, hy, rfl⟩ := exists_of_mem_zipWith hm
    obtain ⟨s, hs, rfl⟩ := List.mem_map.mp hx
    obtain ⟨p, hp, rfl⟩ := List.mem_map.mp hy
    rw [List.length_append, List.length_drop, List.length_replicate, htrend s hs]
    omega
  · intro b hb
    have hbt : b < (seriesDecomp k past).2.length := by omega
    have hbs : b < (seriesDecomp k past).1.length := by omega
    have hmemt : (seriesDecomp k past).2.getD b [] ∈ (seriesDecomp k past).2 := by
      rw [List.getD_eq_getElem _ [] hbt]; exact List.getElem_mem hbt
    have hmems : (seriesDecomp k past).1.getD b [] ∈ (seriesDecomp k past).1 := by
      rw [List.getD_eq_getElem _ [] hbs]; exact List.getElem_mem hbs
    have hTlen : ((seriesDecomp k past).2.getD b []).length = npast := htrend _ hmemt
    have hSlen : ((seriesDecomp k past).1.getD b []).length = npast := hseason _ hmems
    have hti : (catTime (sliceLastTime stl (seriesDecomp k past).2)
        (meanRepeat mfs past)).getD b []
        = ((seriesDecomp k past).2.getD b []).drop
              (((seriesDecomp k past).2.getD b []).length - stl)
            ++ List.replicate mfs (timeMean (past.getD b [])) := by
      rw [catTime, getD_zipWith_mat _ _ _ b (by simpa [sliceLastTime] using hbt)
        (by simpa [meanRepeat] using hb), sliceLastTime, getD_map_mat _ _ b hbt,
        meanRepeat, getD_map_mat _ _ b hb]
    have hsi : (catTime (sliceLastTime stl (seriesDecomp k past).1)
        (zerosTensor past.length mfs (tensorChannels past))).getD b []
        = ((seriesDecomp k past).1.getD b []).drop
              (((seriesDecomp k past).1.getD b []).length - stl)
            ++ List.replicate mfs (rowZeros (tensorChannels past)) := by
      rw [catTime, getD_zipWith_mat _ _ _ b (by simpa [sliceLastTime] using hbs)
        (by simp [zerosTensor, hb]), sliceLastTime, getD_map_mat _ _ b hbs,
        zerosTensor, getD_replicate_mat _ _ b hb]
    have hAT : (((seriesDecomp k past).2.getD b []).drop
        (((seriesDecomp k past).2.getD b []).length - stl)).length = stl := by
      rw [List.length_drop, hTlen]; omega
    have hAS : (((seriesDecomp k past).1.getD b []).drop
        (((seriesDecomp k past).1.getD b []).length - stl)).length = stl := by
      rw [List.length_drop, hSlen]; omega
    refine ⟨?_, ?_, ?_, ?_⟩
    · rw [hti, List.drop_left' hAT]
    · rw [hsi, List.drop_left' hAS]
    · rw [hti, List.take_left' hAT, hTlen]
    · rw [hsi, List.take_left' hAS, hSlen]

/-- A past window with one batch element, three time steps, one channel,
used to exercise C8 with a nonzero start token length. -/
def wPast3 : Tensor3 := [[[1], [2], [3]]]

/-- Witness for C8: kernel 3, start token length 1, horizon 2, past window
of three time steps. -/
theorem c8_decoder_init_streams_witness :
    (1 ≤ 3 ∧ ∀ m ∈ wPast3, m.length = 3)
    ∧ ∀ m ∈ (decompInit (seriesDecomp 3) 1 2 wPast3).2, m.length = 1 + 2 := by
  refine ⟨⟨by decide, by decide⟩, ?_⟩
  exact (c8_decoder_init_streams 3 1 2 3 wPast3 (decompInit (seriesDecomp 3) 1 2 wPast3).1
    (decompInit (seriesDecomp 3) 1 2 wPast3).2 (by decide) (by decide) rfl).2.1

/-- Adding back a subtracted row recovers the original row, provided the
subtrahend is at least as long. -/
theorem rowAdd_rowSub_cancel : ∀ (r s : Row), r.length ≤ s.length →
    rowAdd (rowSub r s) s = r := by
  intro r
  induction r with
  | nil => intro s _; rfl
  | cons a r ih =>
    intro s h
    cases s with
    | nil => simp at h
    | cons b s' =>
      show rowAdd (rowSub (a :: r) (b :: s')) (b :: s') = a :: r
      rw [rowSub, List.zipWith_cons_cons, rowAdd, List.zipWith_cons_cons, sub_add_cancel]
      exact congrArg (a :: ·) (ih s' (Nat.le_of_succ_le_succ h))

/-- Matrix version of `rowAdd_rowSub_cancel`, row by row. -/
theorem matAdd_matSub_cancel : ∀ (m t : Mat), m.length ≤ t.length →
    (∀ p ∈ List.zip m t, p.1.length ≤ p.2.length) →
    matAdd (matSub m t) t = m := by
  intro m
  induction m with
  | nil => intro t _ _; rfl
  | cons r m ih =>
    intro t h hp
    cases t with
    | nil => simp at h
    | cons s t' =>
      show matAdd (matSub (r :: m) (s :: t')) (s :: t') = r :: m
      rw [matSub, List.zipWith_cons_cons, matAdd, List.zipWith_cons_cons,
        rowAdd_rowSub_cancel r s (hp (r, s) (by simp))]
      refine congrArg (r :: ·) (ih t' (Nat.le_of_succ_le_succ h) ?_)
      intro p hmem
      exact hp p (by simp [hmem])

/-- Folding `rowAdd` over rows at least as long as the accumulator keeps
the accumulator's length. -/
theorem foldl_rowAdd_length (C : ℕ) : ∀ (l : List Row) (init : Row),
    init.length = C → (∀ r ∈ l, C ≤ r.length) → (l.foldl rowAdd init).length = C := by
  intro l
  induction l with
  | nil => intro init h _; exact h
  | cons r l ih =>
    intro init h hl
    show (List.foldl rowAdd (rowAdd init r) l).length = C
    refine ih (rowAdd init r) ?_ fun r' hr' => hl r' (List.mem_cons_of_mem r hr')
    rw [rowAdd, List.length_zipWith, h]
    have := hl r (List.mem_cons_self r l)
    omega

/-- The default-or-last element of a list of rows is either a member or
the default. -/
theorem getLastD_mem_or (l : List Row) (d : Row) : l.getLastD d ∈ l ∨ l.getLastD d = d := by
  induction l generalizing d with
  | nil => right; rfl
  | cons a l ih =>
    left
    rw [List.getLastD_cons]
    rcases ih a with h | h
    · exact List.mem_cons_of_mem a h
    · rw [h]; exact List.mem_cons_self a l

/-- Every row of the moving average of a rectangular matrix has the
matrix's channel count. -/
theorem movingAvgMat_row_length (k : ℕ) (m : Mat)
    (hm : ∀ r ∈ m, r.length = channels m) :
    ∀ r ∈ movingAvgMat k m, r.length = channels m := by
  intro r hr
  rw [movingAvgMat] at hr
  simp only [List.mem_map, List.mem_range] at hr
  obtain ⟨t, _, rfl⟩ := hr
  rw [List.length_map]
  refine foldl_rowAdd_length (channels m) _ _ (List.length_replicate ..) ?_
  intro r' hr'
  have hr'' := List.mem_of_mem_drop (List.mem_of_mem_take hr')
  rcases List.mem_append.mp hr'' with h | h
  · rcases List.mem_append.mp h with h' | h'
    · have hd := List.eq_of_mem_replicate h'
      subst hd
      cases m with
      | nil => simp [rowZeros]
      | cons a l =>
        show (List.headD (a :: l) _).length ≤ _
        rw [List.headD_cons]
        exact le_of_eq (hm a (List.mem_cons_self a l)).symm
    · exact le_of_eq (hm r' h').symm
  · have hd := List.eq_of_mem_replicate h
    subst hd
    rcases getLastD_mem_or m (rowZeros (channels m)) with h' | h'
    · exact le_of_eq (hm _ h').symm
    · rw [h', rowZeros, List.length_replicate]

/-- C5: the series decomposition used by `AutoformerModel` returns the
moving average of the input as the trend component and the residual
`input - trend` as the seasonal component, and for rectangular inputs
`seasonal + trend` reconstructs the input elementwise. -/
theorem c5_series_decomp_reconstruction (k : ℕ) (x : Tensor3)
    (hrect : ∀ m ∈ x, ∀ r ∈ m, r.length = channels m) :
    (seriesDecomp k x).2 = x.map (movingAvgMat k)
    ∧ (seriesDecomp k x).1 = List.zipWith matSub x (x.map (movingAvgMat k))
    ∧ tensorAdd (seriesDecomp k x).1 (seriesDecomp k x).2 = x := by
  refine ⟨rfl, rfl, ?_⟩
  show tensorAdd (List.zipWith matSub x (x.map (movingAvgMat k))) (x.map (movingAvgMat k)) = x
  rw [List.zipWith_map_right, List.zipWith_same, tensorAdd, List.zipWith_map_left,
    List.zipWith_map_right, List.zipWith_same]
  have hx : ∀ m ∈ x,
      matAdd (matSub m (movingAvgMat k m)) (movingAvgMat k m) = m := by
    intro m hmem
    refine matAdd_matSub_cancel m (movingAvgMat k m) (le_of_eq (length_movingAvgMat k m).symm) ?_
    intro p hp
    obtain ⟨hp1, hp2⟩ := List.of_mem_zip hp
    rw [hrect m hmem p.1 hp1, movingAvgMat_row_length k m (hrect m hmem) p.2 hp2]
  rw [List.map_congr_left hx]
  exact List.map_id x

/-- Witness for C5: a one-batch, three-step, one-channel series with the
default odd kernel structure (`k = 3`). -/
theorem c5_series_decomp_reconstruction_witness :
    (∀ m ∈ wPast3, ∀ r ∈ m, r.length = channels m)
    ∧ tensorAdd (seriesDecomp 3 wPast3).1 (seriesDecomp 3 wPast3).2 = wPast3 :=
  ⟨by decide, (c5_series_decomp_reconstruction 3 wPast3 (by decide)).2.2⟩

/-- C10: the timestamps handed to the decoder embedding are the last
`start_token_len` past timestamps followed by the future timestamps, built
from the unchanged arguments, so each batch element has time length
`start_token_len + len(future_timestamp)`. -/
theorem c10_decoder_timestamps (stl Lp : ℕ) (pastTs futTs : Tensor3)
    (hb : pastTs.length = futTs.length)
    (hp : ∀ m ∈ pastTs, m.length = Lp) (hstl : stl ≤ Lp) :
    (decFutureTimestamp stl pastTs futTs).length = pastTs.length
    ∧ ∀ b : ℕ, b < pastTs.length →
        (decFutureTimestamp stl pastTs futTs).getD b []
            = (pastTs.getD b []).drop (Lp - stl) ++ futTs.getD b []
        ∧ ((decFutureTimestamp stl pastTs futTs).getD b []).length
            = stl + (futTs.getD b []).length := by
  constructor
  · rw [decFutureTimestamp, catTime, List.length_zipWith, sliceLastTime, List.length_map,
      hb, Nat.min_self]
  · intro b hbb
    have hfb : b < futTs.length := by omega
    have h1 : (decFutureTimestamp stl pastTs futTs).getD b []
        = (pastTs.getD b []).drop ((pastTs.getD b []).length - stl) ++ futTs.getD b [] := by
      rw [decFutureTimestamp, catTime,
        getD_zipWith_mat _ _ _ b (by simpa [sliceLastTime] using hbb) hfb,
        sliceLastTime, getD_map_mat _ _ b hbb]
    have hmem : pastTs.getD b [] ∈ pastTs := by
      rw [List.getD_eq_getElem _ [] hbb]; exact List.getElem_mem hbb
    have hL : (pastTs.getD b []).length = Lp := hp _ hmem
    refine ⟨by rw [h1, hL], ?_⟩
    rw [h1, List.length_append, List.length_drop, hL]
    omega

/-- Witness for C10: two past timestamps, one future timestamp, start
token length one. -/
theorem c10_decoder_timestamps_witness :
    (wPastTs.length = wFutTs.length ∧ (∀ m ∈ wPastTs, m.length = 2) ∧ 1 ≤ 2)
    ∧ ((decFutureTimestamp 1 wPastTs wFutTs).getD 0 []).length
        = 1 + (wFutTs.getD 0 []).length :=
  ⟨⟨by decide, by decide, by decide⟩,
    ((c10_decoder_timestamps 1 2 wPastTs wFutTs (by decide) (by decide) (by decide)).2 0
      (by decide)).2⟩

end Merlion
